import Mathlib

/-!
Verification development for the HTTP authentication core (`ne_auth.c`).

The C code is shallowly embedded: C strings become Lean `String`s (a `char *`
that may be NULL becomes `Option String`), the `unsigned int` nonce counter is
a `Nat` reduced mod `2^32` where the C code can overflow, and fallible or
undefined-behaviour paths return `Option`/`Except`.  The MD5 primitive is kept
abstract: a rolling `ne_md5_ctx` is modelled as the string of bytes absorbed so
far, and `ne_md5_finish_ascii` is an arbitrary parameter
`md5hex : String → String` (assumed to return the 32-hex-digit digest); every
theorem below holds for all such functions, which is exactly the structural
content of the source.
-/

namespace NeAuth

/-! ### Small string helpers (`ne_string.h` routines used by ne_auth.c) -/

/-- 2^32, the modulus of C `unsigned int` arithmetic. -/
def U32 : Nat := 4294967296

/-- ASCII lower-casing of one character, as C `tolower` behaves in the POSIX
locale (only A-Z are mapped). -/
def asciiLower (c : Char) : Char :=
  if 'A' ≤ c ∧ c ≤ 'Z' then Char.ofNat (c.toNat + 32) else c

/-- Lower-case an entire string. -/
def lowerStr (s : String) : String := ⟨s.data.map asciiLower⟩

/-- ne_strcasecmp(a, b) == 0: ASCII case-insensitive string equality. -/
def strCaseEq (a b : String) : Bool := lowerStr a == lowerStr b

/-- ne_shave(s, cs): strip any leading and trailing characters of `cs`. -/
def shave (s : String) (cs : List Char) : String :=
  ⟨((s.data.dropWhile (fun c => c ∈ cs)).reverse.dropWhile (fun c => c ∈ cs)).reverse⟩

/-- Value of one hex digit, or `none` for a non-hex-digit character. -/
def hexVal (c : Char) : Option Nat :=
  if '0' ≤ c ∧ c ≤ '9' then some (c.toNat - 48)
  else if 'a' ≤ c ∧ c ≤ 'f' then some (c.toNat - 87)
  else if 'A' ≤ c ∧ c ≤ 'F' then some (c.toNat - 55)
  else none

/-- Accumulate hex digits until the first non-digit, like `sscanf` `%x` scans. -/
def parseHexAux : Nat → List Char → Nat
  | acc, [] => acc
  | acc, c :: t =>
    match hexVal c with
    | some v => parseHexAux (acc * 16 + v) t
    | none => acc

/-- sscanf(s, "%x", &n): succeeds iff the string starts with a hex digit, and
reads the maximal leading run of hex digits (reduced mod 2^32, the value an
`unsigned int` receives).  Leading white space and a `0x` prefix, which the
real `sscanf` would also accept, are not modelled; no claim depends on them. -/
def parseHex (s : String) : Option Nat :=
  match s.data with
  | [] => none
  | c :: _ => if (hexVal c).isSome then some (parseHexAux 0 s.data % U32) else none

/-- Hex digit character (lowercase), for `%08x` formatting. -/
def hexChar (n : Nat) : Char :=
  if n < 10 then Char.ofNat (48 + n) else Char.ofNat (87 + n)

/-- ne_snprintf(buf, 9, "%08x", n): eight lowercase hex digits of `n < 2^32`,
zero padded. -/
def toHex8 (n : Nat) : String :=
  ⟨[hexChar (n / 268435456 % 16), hexChar (n / 16777216 % 16),
    hexChar (n / 1048576 % 16), hexChar (n / 65536 % 16),
    hexChar (n / 4096 % 16), hexChar (n / 256 % 16),
    hexChar (n / 16 % 16), hexChar (n % 16)]⟩

/-! ### Data model: enumerations, session and challenge records -/

/-- `auth_algorithm`. -/
inductive AuthAlg where
  | md5
  | md5_sess
  | unknown
deriving DecidableEq, Repr

/-- `auth_qop`: the qop the client is using. -/
inductive AuthQop where
  | qnone
  | qauth
deriving DecidableEq, Repr

/-- The Digest-relevant part of `auth_session`.  Pointer fields that
`clean_session` NULLs out are `Option`s; `username` and `h_a1` are in-struct
char arrays and therefore always present.  The rolling
`struct ne_md5_ctx *stored_rdig` is the string of bytes absorbed so far, or
`none` for the NULL pointer. -/
structure DigestSession where
  username : String
  basic : Option String
  realm : Option String
  nonce : Option String
  cnonce : Option String
  opq : Option String
  qop : AuthQop
  alg : AuthAlg
  nonce_count : Nat
  h_a1 : String
  stored_rdig : Option String
deriving DecidableEq, Repr

/-- The fields of `struct auth_challenge` that the Digest acceptor reads. -/
structure Challenge where
  realm : Option String
  nonce : Option String
  opq : Option String
  stale : Bool
  got_qop : Bool
  qop_auth : Bool
  alg : AuthAlg
deriving DecidableEq, Repr

/-- `struct auth_request`: the method and URI of the request at hand. -/
structure AuthRequest where
  method : String
  uri : String
deriving DecidableEq, Repr

/-- NE_OK. -/
def NE_OK : Nat := 0
/-- NE_ERROR. -/
def NE_ERROR : Nat := 1

/-- clean_session: free and NULL the per-session credential strings and the
stored rolling digest.  `username`, `h_a1`, `qop`, `alg` and `nonce_count`
are not touched by the C function. -/
def clean_session (s : DigestSession) : DigestSession :=
  { s with basic := none, nonce := none, cnonce := none, opq := none,
           realm := none, stored_rdig := none }

/-! ### digest_challenge

The credential callback is abstracted by its outcome for this single
invocation: `creds = some (user, password)` when it returns zero after filling
the two buffers, `none` when it reports failure.  `fresh` is the value
`get_cnonce()` produces for this call (entropy is environmental and outside
the model). -/

/-- digest_challenge(sess, attempt, parms): returns the mutated session and
`true` for acceptance (the C return value 0), `false` for rejection. -/
def digest_challenge (md5hex : String → String) (creds : Option (String × String))
    (fresh : String) (s : DigestSession) (parms : Challenge) : DigestSession × Bool :=
  if parms.alg = AuthAlg.unknown then (s, false)
  else if parms.alg = AuthAlg.md5_sess ∧ parms.qop_auth = false then (s, false)
  else
    match parms.realm, parms.nonce with
    | some prealm, some pnonce =>
      match parms.stale, creds with
      | false, none =>
        -- non-stale challenge, credentials refused: the session has already
        -- been cleaned and the new realm installed when the callback fails
        ({ clean_session s with realm := some prealm }, false)
      | st, cr =>
        let s1 : DigestSession :=
          if st then s
          else { clean_session s with
                 realm := some prealm,
                 username := (cr.getD (s.username, "")).1 }
        let pw : String := (cr.getD (s.username, "")).2
        let s2 : DigestSession :=
          { s1 with alg := parms.alg, nonce := some pnonce, cnonce := some fresh,
                    opq := match parms.opq with | some o => some o | none => s1.opq }
        let s3 : DigestSession :=
          if parms.got_qop then { s2 with nonce_count := 0, qop := AuthQop.qauth }
          else { s2 with qop := AuthQop.qnone }
        let s4 : DigestSession :=
          if st then s3
          else
            -- H(A1) = md5(username ":" realm ":" password), replaced for
            -- MD5-sess by md5(hex(base) ":" nonce ":" cnonce)
            let base := md5hex (s3.username ++ ":" ++ prealm ++ ":" ++ pw)
            let ha1 := if s3.alg = AuthAlg.md5_sess
                       then md5hex (base ++ ":" ++ pnonce ++ ":" ++ fresh)
                       else base
            { s3 with h_a1 := ha1 }
        (s4, true)
    | _, _ => (s, false)

/-! ### request_digest -/

/-- The credentials header value assembled by request_digest.  `qopPart`
carries `(cnonce, nc-value)` exactly when the session qop is not `qnone`. -/
def digestHeader (s : DigestSession) (realm nonce uri rdig : String)
    (qopPart : Option (String × String)) : String :=
  "Digest username=\"" ++ s.username ++ "\", " ++
  "realm=\"" ++ realm ++ "\", " ++
  "nonce=\"" ++ nonce ++ "\", " ++
  "uri=\"" ++ uri ++ "\", " ++
  "response=\"" ++ rdig ++ "\", " ++
  "algorithm=\"" ++ (if s.alg = AuthAlg.md5 then "MD5" else "MD5-sess") ++ "\"" ++
  (match s.opq with
   | some o => ", opaque=\"" ++ o ++ "\""
   | none => "") ++
  (match qopPart with
   | some (cn, ncv) =>
     ", cnonce=\"" ++ cn ++ "\", " ++ "nc=" ++ ncv ++ ", " ++ "qop=\"auth\""
   | none => "") ++
  "\r\n"

/-- request_digest(sess, req): produce the header value and the mutated
session.  `none` models the crash when the C code would call `strlen` or
`ne_buffer_concat` on a NULL `nonce`, `realm`, or (with qop) `cnonce`. -/
def request_digest (md5hex : String → String) (req : AuthRequest)
    (s : DigestSession) : Option (String × DigestSession) :=
  match s.nonce, s.realm with
  | some nonce, some realm =>
    let h_a2 := md5hex (req.method ++ ":" ++ req.uri)
    if s.qop = AuthQop.qnone then
      let rdig := md5hex (s.h_a1 ++ ":" ++ nonce ++ ":" ++ h_a2)
      some (digestHeader s realm nonce req.uri rdig none, s)
    else
      match s.cnonce with
      | none => none
      | some cn =>
        let nc1 := (s.nonce_count + 1) % U32
        let ncv := toHex8 nc1
        let pre := s.h_a1 ++ ":" ++ nonce ++ ":" ++ ncv ++ ":" ++ cn ++ ":"
        let rdig := md5hex (pre ++ "auth" ++ ":" ++ h_a2)
        some (digestHeader s realm nonce req.uri rdig (some (cn, ncv)),
              { s with nonce_count := nc1, stored_rdig := some pre })
  | _, _ => none

/-! ### The tokenizer, in param mode (ischall == 0)

`tokenize` destructively splits one `key=value` pair off the header each
call.  One call is modelled by a scan over the remaining characters; the three
states BEFORE_EQ / AFTER_EQ / AFTER_EQ_QUOTED of the C automaton appear as the
functions `scanKey` (with its `seen` flag) and `scanVal` (with its quote
flag).  A C return of -1 is `malformed`; a return of 0 where `*key` or
`*value` was never assigned (possible at end of input in param mode) is
modelled by `none` components, since the caller then reads an indeterminate
pointer. -/

/-- Characters the key-start scan skips, per `strchr(" \r\n\t", *pnt)`. -/
def isWs (c : Char) : Bool := c == ' ' || c == '\r' || c == '\n' || c == '\t'

/-- Result of one `tokenize` call in param mode. -/
inductive TokRes where
  | done
  | malformed
  | pair (key : Option (List Char)) (val : Option (List Char)) (rest : List Char)
deriving DecidableEq, Repr

/-- States AFTER_EQ (`q = false`) and AFTER_EQ_QUOTED (`q = true`): the value
runs to the next unquoted comma or to end of input. -/
def scanVal (key acc : List Char) (q : Bool) : List Char → TokRes
  | [] => .pair (some key) (some acc) []
  | c :: t =>
    if q then scanVal key (acc ++ [c]) (!(c == '\"')) t
    else if c == ',' then .pair (some key) (some acc) t
    else if c == '\"' then scanVal key (acc ++ [c]) true t
    else scanVal key (acc ++ [c]) false t

/-- State BEFORE_EQ: leading white space is skipped until the key starts; the
key then runs to the `=`.  An `=` with no key is the malformed (-1) return;
end of input leaves the value (and possibly the key) unassigned. -/
def scanKey (acc : List Char) (seen : Bool) : List Char → TokRes
  | [] => .pair (if seen then some acc else none) none []
  | c :: t =>
    if c == '=' then
      if seen then scanVal acc [] false t else .malformed
    else if !seen && isWs c then scanKey acc false t
    else scanKey (acc ++ [c]) true t

/-- One call of tokenize(hdr, key, val, NULL, 0). -/
def tokenize1 (l : List Char) : TokRes :=
  match l with
  | [] => .done
  | _ :: _ => scanKey [] false l

/-- The `while (tokenize(..) == 0)` loop of verify_digest_response: collect
the emitted pairs in order.  Parsing stops cleanly at end of input or at a
malformed pair; a pair with an unassigned key or value makes the whole parse
`none` (the C caller would read indeterminate memory).  The fuel argument,
always at least the input length plus one, only makes the recursion
structural; `tokenize` consumes at least one character per emitted pair. -/
def tokenizeParamsAux (fuel : Nat) (l : List Char) : Option (List (String × String)) :=
  match fuel with
  | 0 => none
  | fuel + 1 =>
    match tokenize1 l with
    | .done => some []
    | .malformed => some []
    | .pair (some k) (some v) rest =>
      match tokenizeParamsAux fuel rest with
      | some ps => some ((⟨k⟩, ⟨v⟩) :: ps)
      | none => none
    | .pair _ _ _ => none

/-- All `key=value` pairs of an Authentication-Info value, in order. -/
def tokenizeParams (s : String) : Option (List (String × String)) :=
  tokenizeParamsAux (s.data.length + 1) s.data

/-! ### verify_digest_response -/

/-- The locals of verify_digest_response after its parameter loop: the last
occurrence of each recognized key wins, every value shaved of surrounding
double quotes.  `ncNum` is the C local `nonce_count`: it starts as the
indeterminate stack value (the `junk` argument below) and is overwritten by
each `nc` value that `sscanf` can parse. -/
structure AInfo where
  qop : AuthQop
  qop_value : Option String
  nextnonce : Option String
  rspauth : Option String
  cnonce : Option String
  nc : Option String
  ncNum : Nat
deriving DecidableEq, Repr

/-- One iteration of the parameter loop of verify_digest_response. -/
def extractStep (a : AInfo) (kv : String × String) : AInfo :=
  let k := kv.1
  let v := shave kv.2 ['\"']
  if strCaseEq k "qop" then
    { a with qop_value := some v,
             qop := if strCaseEq v "auth" then AuthQop.qauth else AuthQop.qnone }
  else if strCaseEq k "nextnonce" then { a with nextnonce := some v }
  else if strCaseEq k "rspauth" then { a with rspauth := some v }
  else if strCaseEq k "cnonce" then { a with cnonce := some v }
  else if strCaseEq k "nc" then
    { a with nc := some v,
             ncNum := match parseHex v with
                      | some n => n
                      | none => a.ncNum }
  else a

/-- The initial locals: every pointer NULL, `qop = auth_qop_none`, and the
nonce-count local holding whatever was on the stack. -/
def initAInfo (junk : Nat) : AInfo :=
  { qop := AuthQop.qnone, qop_value := none, nextnonce := none, rspauth := none,
    cnonce := none, nc := none, ncNum := junk }

/-- The parameter loop of verify_digest_response over the parsed pairs. -/
def extractAI (junk : Nat) (ps : List (String × String)) : AInfo :=
  ps.foldl extractStep (initAInfo junk)

/-- Crashes of verify_digest_response, made explicit: dereferencing a NULL
`sess->stored_rdig`, strcmp against a NULL `sess->cnonce`, and reading an
unassigned tokenizer output. -/
inductive VErr where
  | derefRdig
  | derefCnonce
  | junkVal
deriving DecidableEq, Repr

/-- The trailing nextnonce check: replace the session nonce when a nextnonce
parameter was seen. -/
def nextnonceUpdate (a : AInfo) (s : DigestSession) : DigestSession :=
  match a.nextnonce with
  | some nn => { s with nonce := some nn }
  | none => s

/-- verify_digest_response(req, sess, value): the NE_* return code and the
mutated session, or the crash the C code would hit.  The per-session error
string set alongside NE_ERROR is not modelled. -/
def verify_digest_response (md5hex : String → String) (req : AuthRequest)
    (junk : Nat) (s : DigestSession) (value : String) :
    Except VErr (Nat × DigestSession) :=
  match tokenizeParams value with
  | none => .error .junkVal
  | some ps =>
    let a := extractAI junk ps
    if a.qop = AuthQop.qnone then
      -- 2069-style header: accepted silently
      .ok (NE_OK, nextnonceUpdate a s)
    else
      match a.rspauth, a.cnonce, a.nc with
      | some rsp, some ac, some _ =>
        match s.cnonce with
        | none => .error .derefCnonce
        | some sc =>
          if ac ≠ sc then .ok (NE_ERROR, nextnonceUpdate a s)
          else if a.ncNum ≠ s.nonce_count then .ok (NE_ERROR, nextnonceUpdate a s)
          else
            match s.stored_rdig with
            | none => .error .derefRdig
            | some ctx =>
              -- resume the stored rolling context with
              --   qop-value ":" hex(md5(":" uri))  and finalize
              let a2 := md5hex (":" ++ req.uri)
              let rdig := md5hex (ctx ++ a.qop_value.getD "" ++ ":" ++ a2)
              let ret := if strCaseEq rdig rsp then NE_OK else NE_ERROR
              .ok (ret, nextnonceUpdate a { s with stored_rdig := none })
      | _, _, _ => .ok (NE_ERROR, nextnonceUpdate a s)

/-! ### Scheme registry and pipeline post-send dispatch -/

/-- NE_AUTH_BASIC protocol id bit. -/
def NE_AUTH_BASIC : Nat := 1
/-- NE_AUTH_DIGEST protocol id bit. -/
def NE_AUTH_DIGEST : Nat := 2
/-- NE_AUTH_NEGOTIATE protocol id bit. -/
def NE_AUTH_NEGOTIATE : Nat := 4

/-- AUTH_FLAG_OPAQUE_PARAM. -/
def FLAG_OPQ_PARAM : Nat := 1
/-- AUTH_FLAG_VERIFY_NON40x. -/
def FLAG_VERIFY_NON40x : Nat := 2

/-- An entry of the static `protocols[]` table.  `hasVerify` records whether
the `verify` function pointer is non-NULL. -/
structure AuthProtocol where
  id : Nat
  strength : Nat
  name : String
  hasVerify : Bool
  flags : Nat
deriving DecidableEq, Repr

/-- protocols[]: Basic entry. -/
def basicProto : AuthProtocol :=
  { id := NE_AUTH_BASIC, strength := 10, name := "Basic", hasVerify := false, flags := 0 }

/-- protocols[]: Digest entry. -/
def digestProto : AuthProtocol :=
  { id := NE_AUTH_DIGEST, strength := 20, name := "Digest", hasVerify := true, flags := 0 }

/-- protocols[]: GSSAPI Negotiate entry (compiled under HAVE_GSSAPI). -/
def negoGssProto : AuthProtocol :=
  { id := NE_AUTH_NEGOTIATE, strength := 30, name := "Negotiate", hasVerify := true,
    flags := FLAG_OPQ_PARAM + FLAG_VERIFY_NON40x }

/-- protocols[]: SSPI NTLM entry (compiled under HAVE_SSPI). -/
def ntlmSspiProto : AuthProtocol :=
  { id := NE_AUTH_NEGOTIATE, strength := 30, name := "NTLM", hasVerify := false,
    flags := FLAG_OPQ_PARAM + FLAG_VERIFY_NON40x }

/-- protocols[]: SSPI Negotiate entry (compiled under HAVE_SSPI). -/
def negoSspiProto : AuthProtocol :=
  { id := NE_AUTH_NEGOTIATE, strength := 30, name := "Negotiate", hasVerify := false,
    flags := FLAG_OPQ_PARAM + FLAG_VERIFY_NON40x }

/-- The `protocols[]` table without its `{ 0 }` sentinel, for each of the four
build configurations (`g` = HAVE_GSSAPI, `sp` = HAVE_SSPI). -/
def protocols (g sp : Bool) : List AuthProtocol :=
  [basicProto, digestProto] ++ (if g then [negoGssProto] else [])
    ++ (if sp then [ntlmSspiProto, negoSspiProto] else [])

/-- Which branch of the if-chain at the end of ah_post_send runs. -/
inductive PostAction where
  | verifyInfo
  | verifyChall
  | challengeHdr
  | pass
deriving DecidableEq, Repr

/-- `sess->protocol && sess->protocol->verify &&
(sess->protocol->flags & AUTH_FLAG_VERIFY_NON40x) == 0`. -/
def protoVerifyNoNon40x : Option AuthProtocol → Bool
  | none => false
  | some p => p.hasVerify && decide (p.flags &&& FLAG_VERIFY_NON40x = 0)

/-- `sess->protocol && sess->protocol->flags && AUTH_FLAG_VERIFY_NON40x`: the
source uses logical AND between `flags` and the (nonzero) flag constant, so
this is just "the selected protocol has a nonzero flags word". -/
def protoFlagsNonzero : Option AuthProtocol → Bool
  | none => false
  | some p => decide (p.flags ≠ 0)

/-- The response status fields ah_post_send reads. -/
structure Status where
  code : Nat
  klass : Nat
deriving DecidableEq, Repr

/-- The if-chain of ah_post_send, after the CONNECT-401 header fallback:
which verifier/challenge action is taken.  `statusCode` is
`sess->spec->status_code` (401 or 407) and `isConnectCtx` is
`sess->context == AUTH_CONNECT`.  `verifyInfo` runs the verifier on the
auth-info header, `verifyChall` runs it on the challenge header,
`challengeHdr` parses the challenge header, and `pass` falls through. -/
def ah_post_send_action (proto : Option AuthProtocol) (infoHdr authHdr : Bool)
    (st : Status) (statusCode : Nat) (isConnectCtx : Bool) : PostAction :=
  if infoHdr && protoVerifyNoNon40x proto then .verifyInfo
  else if protoFlagsNonzero proto
          && (decide (st.klass = 2) || decide (st.klass = 3)) && authHdr then
    .verifyChall
  else if (decide (st.code = statusCode) || (decide (st.code = 401) && isConnectCtx))
          && authHdr then
    .challengeHdr
  else .pass

/-! ### Challenge list construction and the acceptance loop -/

/-- A node of the transient challenge list, as insert_challenge creates it:
`ne_calloc` zeroes every field, so only the protocol pointer distinguishes
fresh nodes. -/
structure ChItem where
  protocol : AuthProtocol
deriving DecidableEq, Repr

/-- The node insert_challenge allocates. -/
def mkChall (p : AuthProtocol) : ChItem := ⟨p⟩

/-- insert_challenge(list, proto): walk past every node whose strength is at
least `proto`'s, splice the new node in before the first strictly weaker
node (or at the end). -/
def insert_challenge : List ChItem → AuthProtocol → List ChItem
  | [], p => [mkChall p]
  | c :: t, p =>
    if p.strength > c.protocol.strength then mkChall p :: c :: t
    else c :: insert_challenge t p

/-- An application-registered handler; only the protocol mask matters here. -/
structure AuthHandler where
  protomask : Nat
deriving DecidableEq, Repr

/-- The inner loop of the bare-token case of auth_challenge: the first table
protocol admitted by this handler's mask whose name matches the token
case-insensitively. -/
def findProtoFor (hdl : AuthHandler) (key : String) (ps : List AuthProtocol) :
    Option AuthProtocol :=
  ps.find? (fun p => decide (p.id &&& hdl.protomask ≠ 0) && strCaseEq key p.name)

/-- The outer loop: the first registered handler that admits a protocol named
by the token claims the challenge. -/
def claimHandler (hdls : List AuthHandler) (key : String)
    (ps : List AuthProtocol) : Option (AuthHandler × AuthProtocol) :=
  match hdls with
  | [] => none
  | h :: t =>
    match findProtoFor h key ps with
    | some p => some (h, p)
    | none => claimHandler t key ps

/-- The acceptance loop at the end of auth_challenge: try each challenge in
list order, threading the session through the acceptors
(`chall->protocol->challenge` is abstracted as `accept`), and stop at the
first acceptor that returns success.  The result is the final session and
the protocol recorded in `sess->protocol` (`none` when every acceptor
failed, since the field is cleared before the loop). -/
def challengeLoop {σ : Type} (accept : ChItem → σ → σ × Bool) :
    σ → List ChItem → σ × Option AuthProtocol
  | s, [] => (s, none)
  | s, c :: t =>
    if (accept c s).2 then ((accept c s).1, some c.protocol)
    else challengeLoop accept (accept c s).1 t

/-- auth_challenge's return value `!(sess->protocol != NULL)`. -/
def auth_challenge_ret (sel : Option AuthProtocol) : Nat :=
  if sel.isSome then 0 else 1

/-- The state reached by running every acceptor of `l` in order, keeping only
the threaded session (the state the loop is in when it reaches the node after
`l`). -/
def runAll {σ : Type} (accept : ChItem → σ → σ × Bool) : σ → List ChItem → σ
  | s, [] => s
  | s, c :: t => runAll accept (accept c s).1 t

/-- Every acceptor of `l` fails when run in order from state `s`. -/
def allFail {σ : Type} (accept : ChItem → σ → σ × Bool) (s : σ)
    (l : List ChItem) : Prop :=
  ∀ l1 c l2, l = l1 ++ c :: l2 → (accept c (runAll accept s l1)).2 = false

/-! ### Helper lemmas -/

theorem nextnonceUpdate_frame (a : AInfo) (s : DigestSession) :
    (nextnonceUpdate a s).username = s.username ∧
    (nextnonceUpdate a s).basic = s.basic ∧
    (nextnonceUpdate a s).realm = s.realm ∧
    (nextnonceUpdate a s).cnonce = s.cnonce ∧
    (nextnonceUpdate a s).opq = s.opq ∧
    (nextnonceUpdate a s).qop = s.qop ∧
    (nextnonceUpdate a s).alg = s.alg ∧
    (nextnonceUpdate a s).nonce_count = s.nonce_count ∧
    (nextnonceUpdate a s).h_a1 = s.h_a1 ∧
    (nextnonceUpdate a s).stored_rdig = s.stored_rdig := by
  cases h : a.nextnonce <;> simp [nextnonceUpdate, h]

theorem nextnonceUpdate_nonce (a : AInfo) (s : DigestSession) :
    ((nextnonceUpdate a s).nonce = s.nonce ∧ a.nextnonce = none) ∨
    (∃ nn, a.nextnonce = some nn ∧ (nextnonceUpdate a s).nonce = some nn) := by
  cases h : a.nextnonce <;> simp [nextnonceUpdate, h]

/-! ### C6: rejection conditions of the Digest challenge acceptor -/

/-- C6: digest_challenge returns non-zero (rejects) exactly when the
algorithm is unknown, or the algorithm is md5-sess without qop=auth offered,
or the realm or nonce is missing, or the challenge is non-stale and the
credential callback fails; in every other case it accepts. -/
theorem digest_challenge_reject_iff (md5hex : String → String)
    (creds : Option (String × String)) (fresh : String) (s : DigestSession)
    (parms : Challenge) :
    (digest_challenge md5hex creds fresh s parms).2 = false ↔
      (parms.alg = AuthAlg.unknown ∨
       (parms.alg = AuthAlg.md5_sess ∧ parms.qop_auth = false) ∨
       parms.realm = none ∨ parms.nonce = none ∨
       (parms.stale = false ∧ creds = none)) := by
  rcases parms with ⟨pr, pn, po, pst, pgq, pqa, palg⟩
  cases palg <;> cases pqa <;> cases pr <;> cases pn <;> cases pst <;>
    cases creds <;> simp [digest_challenge]

/-! ### C7: effect of accepting a stale Digest challenge -/

/-- A live Digest session with a nonzero nonce count. -/
def sessStale : DigestSession :=
  { username := "jo", basic := none, realm := some "x", nonce := some "abc",
    cnonce := some "oc", opq := none, qop := AuthQop.qauth, alg := AuthAlg.md5,
    nonce_count := 7, h_a1 := "HA1", stored_rdig := none }

/-- A stale challenge that carries no qop directive. -/
def challStaleNoQop : Challenge :=
  { realm := some "x", nonce := some "def", opq := none, stale := true,
    got_qop := false, qop_auth := false, alg := AuthAlg.md5 }

/-- C7 counterexample: a stale challenge without a qop directive is accepted,
yet the session's nonce_count is not reset to 0 (it stays at 7): the reset
only happens under `parms->got_qop`. -/
theorem digest_challenge_stale_no_reset :
    (digest_challenge (fun x => x) none "f1" sessStale challStaleNoQop).2 = true ∧
    (digest_challenge (fun x => x) none "f1" sessStale challStaleNoQop).1.nonce_count ≠ 0 := by
  decide

/-- C7 (amended): accepting a stale Digest challenge never consults the
credential callback (the result is the same for any callback outcome), leaves
the session's username, H(A1), realm, Basic blob and stored rolling digest
unchanged, replaces the nonce with the challenge's nonce and the cnonce with
the freshly generated one; nonce_count is reset to 0 (and qop set to auth)
exactly when the challenge carries a qop directive, and is left unchanged
(with qop set to none) otherwise. -/
theorem digest_challenge_stale_frame (md5hex : String → String)
    (creds creds2 : Option (String × String)) (fresh : String)
    (s : DigestSession) (parms : Challenge) (s' : DigestSession)
    (hst : parms.stale = true)
    (h : digest_challenge md5hex creds fresh s parms = (s', true)) :
    digest_challenge md5hex creds2 fresh s parms = (s', true) ∧
    s'.username = s.username ∧ s'.h_a1 = s.h_a1 ∧ s'.realm = s.realm ∧
    s'.basic = s.basic ∧ s'.stored_rdig = s.stored_rdig ∧
    s'.nonce = parms.nonce ∧ s'.cnonce = some fresh ∧
    (parms.got_qop = true → s'.nonce_count = 0 ∧ s'.qop = AuthQop.qauth) ∧
    (parms.got_qop = false → s'.nonce_count = s.nonce_count ∧ s'.qop = AuthQop.qnone) := by
  rcases parms with ⟨pr, pn, po, pst, pgq, pqa, palg⟩
  simp only at hst
  subst hst
  cases palg <;> cases pqa <;> cases pr <;> cases pn <;> cases pgq <;> cases po <;>
    simp [digest_challenge] at h ⊢ <;> subst h <;> simp

/-- A stale challenge carrying qop=auth. -/
def challStaleQop : Challenge :=
  { realm := some "x", nonce := some "def", opq := none, stale := true,
    got_qop := true, qop_auth := true, alg := AuthAlg.md5 }

/-- The session after accepting `challStaleQop` from `sessStale`. -/
def sessStaleAfter : DigestSession :=
  { username := "jo", basic := none, realm := some "x", nonce := some "def",
    cnonce := some "f1", opq := none, qop := AuthQop.qauth, alg := AuthAlg.md5,
    nonce_count := 0, h_a1 := "HA1", stored_rdig := none }

/-- Witness for the amended C7 at a concrete stale qop-bearing challenge. -/
theorem digest_challenge_stale_frame_witness :
    digest_challenge (fun x => x) none "f1" sessStale challStaleQop = (sessStaleAfter, true) ∧
    sessStaleAfter.nonce_count = 0 ∧ sessStaleAfter.h_a1 = sessStale.h_a1 := by
  have h0 : digest_challenge (fun x => x) (some ("u", "p")) "f1" sessStale challStaleQop
      = (sessStaleAfter, true) := by decide
  have h := digest_challenge_stale_frame (fun x => x) (some ("u", "p")) none "f1"
      sessStale challStaleQop sessStaleAfter (by decide) h0
  exact ⟨h.1, (h.2.2.2.2.2.2.2.2.1 rfl).1, h.2.2.1⟩

/-! ### C8: evolution of nonce_count across the Digest operations -/

theorem nextnonceUpdate_nc (a : AInfo) (s : DigestSession) :
    (nextnonceUpdate a s).nonce_count = s.nonce_count := by
  cases h : a.nextnonce <;> simp [nextnonceUpdate, h]

theorem nextnonceUpdate_rdig (a : AInfo) (s : DigestSession) :
    (nextnonceUpdate a s).stored_rdig = s.stored_rdig := by
  cases h : a.nextnonce <;> simp [nextnonceUpdate, h]

/-- A fresh (non-stale) Digest challenge without a qop directive. -/
def challNoQopFresh : Challenge :=
  { realm := some "r", nonce := some "n", opq := none, stale := false,
    got_qop := false, qop_auth := false, alg := AuthAlg.md5 }

/-- C8 counterexample: a successful acceptance of a non-stale challenge does
not reset nonce_count when the challenge carries no qop directive — neither
digest_challenge (the reset is guarded by `parms->got_qop`) nor clean_session
(which never touches `nonce_count`) zeroes it, so it stays at 7. -/
theorem nonce_count_not_reset_non_stale :
    (digest_challenge (fun x => x) (some ("jo", "pw")) "cn" sessStale challNoQopFresh).2 = true ∧
    (digest_challenge (fun x => x) (some ("jo", "pw")) "cn" sessStale challNoQopFresh).1.nonce_count ≠ 0 := by
  decide

/-- C8 (amended): a qop=auth request_digest increments nonce_count by one
(mod 2^32) and a qop-less one leaves it alone; digest_challenge resets it to
zero exactly on successful acceptance of a challenge carrying a qop directive
(stale or not) and leaves it unchanged in every other case, including
clean_session (which does not touch it); response verification never changes
it. -/
theorem nonce_count_evolution :
    (∀ (md5hex : String → String) (req : AuthRequest) (s : DigestSession)
       (hdr : String) (s' : DigestSession),
       request_digest md5hex req s = some (hdr, s') →
       s'.nonce_count =
         (if s.qop = AuthQop.qnone then s.nonce_count else (s.nonce_count + 1) % U32)) ∧
    (∀ (md5hex : String → String) (creds : Option (String × String)) (fresh : String)
       (s : DigestSession) (parms : Challenge) (s' : DigestSession) (ok : Bool),
       digest_challenge md5hex creds fresh s parms = (s', ok) →
       s'.nonce_count =
         (if ok = true ∧ parms.got_qop = true then 0 else s.nonce_count)) ∧
    (∀ s : DigestSession, (clean_session s).nonce_count = s.nonce_count) ∧
    (∀ (md5hex : String → String) (req : AuthRequest) (junk : Nat) (s : DigestSession)
       (value : String) (r : Nat) (s' : DigestSession),
       verify_digest_response md5hex req junk s value = .ok (r, s') →
       s'.nonce_count = s.nonce_count) := by
  refine ⟨?_, ?_, ?_, ?_⟩
  · intro md5hex req s hdr s' h
    unfold request_digest at h
    split at h
    · split at h
      · simp only [Option.some.injEq, Prod.mk.injEq] at h
        obtain ⟨-, rfl⟩ := h
        simp_all
      · split at h
        · exact absurd h (by simp)
        · simp only [Option.some.injEq, Prod.mk.injEq] at h
          obtain ⟨-, rfl⟩ := h
          simp_all
    · exact absurd h (by simp)
  · intro md5hex creds fresh s parms s' ok h
    rcases parms with ⟨pr, pn, po, pst, pgq, pqa, palg⟩
    cases palg <;> cases pqa <;> cases pr <;> cases pn <;> cases pst <;>
      cases pgq <;> cases po <;> cases creds <;>
      simp [digest_challenge] at h <;> obtain ⟨rfl, rfl⟩ := h <;> simp [clean_session]
  · intro s
    rfl
  · intro md5hex req junk s value r s' h
    unfold verify_digest_response at h
    split at h
    · exact absurd h (by simp)
    · dsimp only at h
      split at h
      · simp only [Except.ok.injEq, Prod.mk.injEq] at h
        obtain ⟨-, rfl⟩ := h
        exact nextnonceUpdate_nc _ _
      · split at h
        · split at h
          · exact absurd h (by simp)
          · split at h
            · simp only [Except.ok.injEq, Prod.mk.injEq] at h
              obtain ⟨-, rfl⟩ := h
              exact nextnonceUpdate_nc _ _
            · split at h
              · simp only [Except.ok.injEq, Prod.mk.injEq] at h
                obtain ⟨-, rfl⟩ := h
                exact nextnonceUpdate_nc _ _
              · split at h
                · exact absurd h (by simp)
                · simp only [Except.ok.injEq, Prod.mk.injEq] at h
                  obtain ⟨-, rfl⟩ := h
                  exact nextnonceUpdate_nc _ _
        · simp only [Except.ok.injEq, Prod.mk.injEq] at h
          obtain ⟨-, rfl⟩ := h
          exact nextnonceUpdate_nc _ _

/-- Witness for the amended C8 at a concrete qop=auth request. -/
theorem nonce_count_evolution_witness :
    sessStaleAfter.qop ≠ AuthQop.qnone ∧
    ((request_digest (fun x => x) ⟨"GET", "/"⟩ sessStaleAfter).map
        (fun x => x.2.nonce_count)) = some ((sessStaleAfter.nonce_count + 1) % U32) := by
  constructor
  · decide
  · have h1 : ∃ hdr s', request_digest (fun x => x) ⟨"GET", "/"⟩ sessStaleAfter
        = some (hdr, s') := ⟨_, _, rfl⟩
    obtain ⟨hdr, s', h⟩ := h1
    have h2 := nonce_count_evolution.1 (fun x => x) ⟨"GET", "/"⟩ sessStaleAfter hdr s' h
    rw [h, Option.map_some']
    simp only [h2]
    decide

/-! ### C9: frame effect of the Digest verifier -/

/-- Every successful verify_digest_response result is the input session, with
`stored_rdig` possibly consumed, passed through the nextnonce update. -/
theorem verify_ok_shape (md5hex : String → String) (req : AuthRequest) (junk : Nat)
    (s : DigestSession) (value : String) (r : Nat) (s' : DigestSession)
    (h : verify_digest_response md5hex req junk s value = .ok (r, s')) :
    ∃ ps, tokenizeParams value = some ps ∧
      (s' = nextnonceUpdate (extractAI junk ps) s ∨
       s' = nextnonceUpdate (extractAI junk ps) { s with stored_rdig := none }) := by
  unfold verify_digest_response at h
  split at h
  · exact absurd h (by simp)
  · next ps hps =>
    refine ⟨ps, hps, ?_⟩
    dsimp only at h
    split at h
    · simp only [Except.ok.injEq, Prod.mk.injEq] at h
      exact Or.inl h.2.symm
    · split at h
      · split at h
        · exact absurd h (by simp)
        · split at h
          · simp only [Except.ok.injEq, Prod.mk.injEq] at h
            exact Or.inl h.2.symm
          · split at h
            · simp only [Except.ok.injEq, Prod.mk.injEq] at h
              exact Or.inl h.2.symm
            · split at h
              · exact absurd h (by simp)
              · simp only [Except.ok.injEq, Prod.mk.injEq] at h
                exact Or.inr h.2.symm
      · simp only [Except.ok.injEq, Prod.mk.injEq] at h
        exact Or.inl h.2.symm

/-- C9: whatever the verification outcome `r`, the verifier leaves every
session field untouched except `nonce` (replaced by the nextnonce parameter
exactly when one is present), `stored_rdig` (possibly consumed) and the
unmodelled error string. -/
theorem verify_digest_response_frame (md5hex : String → String) (req : AuthRequest)
    (junk : Nat) (s : DigestSession) (value : String) (r : Nat) (s' : DigestSession)
    (h : verify_digest_response md5hex req junk s value = .ok (r, s')) :
    s'.username = s.username ∧ s'.basic = s.basic ∧ s'.realm = s.realm ∧
    s'.cnonce = s.cnonce ∧ s'.opq = s.opq ∧ s'.qop = s.qop ∧ s'.alg = s.alg ∧
    s'.nonce_count = s.nonce_count ∧ s'.h_a1 = s.h_a1 ∧
    (∀ ps, tokenizeParams value = some ps →
      ((extractAI junk ps).nextnonce = none → s'.nonce = s.nonce) ∧
      (∀ nn, (extractAI junk ps).nextnonce = some nn → s'.nonce = some nn)) := by
  obtain ⟨ps, hps, hsh⟩ := verify_ok_shape md5hex req junk s value r s' h
  have hfields : ∀ t : DigestSession,
      s' = nextnonceUpdate (extractAI junk ps) t →
      s'.username = t.username ∧ s'.basic = t.basic ∧ s'.realm = t.realm ∧
      s'.cnonce = t.cnonce ∧ s'.opq = t.opq ∧ s'.qop = t.qop ∧ s'.alg = t.alg ∧
      s'.nonce_count = t.nonce_count ∧ s'.h_a1 = t.h_a1 := by
    intro t ht
    subst ht
    obtain ⟨h1, h2, h3, h4, h5, h6, h7, h8, h9, -⟩ := nextnonceUpdate_frame (extractAI junk ps) t
    exact ⟨h1, h2, h3, h4, h5, h6, h7, h8, h9⟩
  have hnonce : ∀ t : DigestSession, t.nonce = s.nonce →
      s' = nextnonceUpdate (extractAI junk ps) t →
      ((extractAI junk ps).nextnonce = none → s'.nonce = s.nonce) ∧
      (∀ nn, (extractAI junk ps).nextnonce = some nn → s'.nonce = some nn) := by
    intro t htn ht
    subst ht
    constructor
    · intro hnn
      simp [nextnonceUpdate, hnn, htn]
    · intro nn hnn
      simp [nextnonceUpdate, hnn]
  rcases hsh with ht | ht
  · obtain ⟨h1, h2, h3, h4, h5, h6, h7, h8, h9⟩ := hfields s ht
    refine ⟨h1, h2, h3, h4, h5, h6, h7, h8, h9, ?_⟩
    intro ps' hps'
    rw [hps] at hps'
    obtain rfl := Option.some.injEq _ _ ▸ hps'
    exact hnonce s rfl ht
  · obtain ⟨h1, h2, h3, h4, h5, h6, h7, h8, h9⟩ := hfields { s with stored_rdig := none } ht
    refine ⟨h1, h2, h3, h4, h5, h6, h7, h8, h9, ?_⟩
    intro ps' hps'
    rw [hps] at hps'
    obtain rfl := Option.some.injEq _ _ ▸ hps'
    exact hnonce { s with stored_rdig := none } rfl ht

/-- A session holding a pending request digest, awaiting verification. -/
def sessPending : DigestSession :=
  { username := "jo", basic := none, realm := some "x", nonce := some "abc",
    cnonce := some "ccc", opq := none, qop := AuthQop.qauth, alg := AuthAlg.md5,
    nonce_count := 1, h_a1 := "HA1", stored_rdig := some "HA1:abc:00000001:ccc:" }

/-- `sessPending` after the verifier installs the nextnonce `zzz`. -/
def sessPendingAfter : DigestSession :=
  { username := "jo", basic := none, realm := some "x", nonce := some "zzz",
    cnonce := some "ccc", opq := none, qop := AuthQop.qauth, alg := AuthAlg.md5,
    nonce_count := 1, h_a1 := "HA1", stored_rdig := some "HA1:abc:00000001:ccc:" }

/-- Witness for C9: a 2069-style Authentication-Info with a nextnonce replaces
the session nonce and keeps nonce_count. -/
theorem verify_digest_response_frame_witness :
    verify_digest_response (fun x => x) ⟨"GET", "/"⟩ 0 sessPending "nextnonce=zzz"
        = .ok (NE_OK, sessPendingAfter) ∧ sessPendingAfter.nonce = some "zzz" ∧
    sessPendingAfter.nonce_count = sessPending.nonce_count ∧
    sessPendingAfter.cnonce = sessPending.cnonce := by
  have h : verify_digest_response (fun x => x) ⟨"GET", "/"⟩ 0 sessPending "nextnonce=zzz"
      = .ok (NE_OK, sessPendingAfter) := by rfl
  have hf := verify_digest_response_frame (fun x => x) ⟨"GET", "/"⟩ 0 sessPending
      "nextnonce=zzz" NE_OK sessPendingAfter h
  refine ⟨h, ?_, hf.2.2.2.2.2.2.2.1, hf.2.2.2.1⟩
  exact (hf.2.2.2.2.2.2.2.2.2 [("nextnonce", "zzz")] (by rfl)).2 "zzz" (by rfl)

/-! ### C1: the decision structure of the Digest verifier -/

/-- Each parameter-loop step either leaves the nc locals alone or installs the
current (quote-shaved) value with its sscanf result. -/
theorem extractStep_nc_ncNum (a : AInfo) (kv : String × String) :
    ((extractStep a kv).nc = a.nc ∧ (extractStep a kv).ncNum = a.ncNum) ∨
    ((extractStep a kv).nc = some (shave kv.2 ['\"']) ∧
     (extractStep a kv).ncNum =
       (match parseHex (shave kv.2 ['\"']) with
        | some n => n
        | none => a.ncNum)) := by
  unfold extractStep
  dsimp only
  split_ifs <;> simp

/-- After the parameter loop, whenever the final `nc` value hex-parses, the
nonce-count local holds exactly that parse (the indeterminate initial value
cannot survive a parseable final `nc`). -/
theorem extractAI_ncNum (junk : Nat) (ps : List (String × String)) :
    ∀ v n, (extractAI junk ps).nc = some v → parseHex v = some n →
      (extractAI junk ps).ncNum = n := by
  have key : ∀ (l : List (String × String)) (a : AInfo),
      (∀ v n, a.nc = some v → parseHex v = some n → a.ncNum = n) →
      (∀ v n, (l.foldl extractStep a).nc = some v → parseHex v = some n →
        (l.foldl extractStep a).ncNum = n) := by
    intro l
    induction l with
    | nil => intro a ha; exact ha
    | cons kv t ih =>
      intro a ha
      refine ih (extractStep a kv) ?_
      intro v n hv hp
      rcases extractStep_nc_ncNum a kv with ⟨h1, h2⟩ | ⟨h1, h2⟩
      · rw [h2]
        exact ha v n (h1 ▸ hv) hp
      · rw [h1] at hv
        obtain rfl : shave kv.2 ['\"'] = v := Option.some.injEq _ _ ▸ hv
        rw [h2, hp]
  refine key ps (initAInfo junk) ?_
  intro v n hv
  simp [initAInfo] at hv

/-- C1: the decision made by verify_digest_response, as a function of the
parsed Authentication-Info parameters `a` (last occurrence of each key wins,
values shaved of double quotes) and the session.  If the parsed qop is not
`auth` the verifier returns NE_OK with no checking; otherwise a missing
rspauth/cnonce/nc, a cnonce differing (string equality) from the session's,
or an nc whose hex parse differs from the session's nonce_count yields
NE_ERROR; otherwise the result is NE_OK exactly when the digest obtained by
resuming the stored rolling context with qop-value, ":", hex(md5(":" uri))
matches rspauth case-insensitively. -/
theorem verify_digest_response_cases (md5hex : String → String) (req : AuthRequest)
    (junk : Nat) (s : DigestSession) (value : String) (ps : List (String × String))
    (hps : tokenizeParams value = some ps) (a : AInfo) (ha : a = extractAI junk ps) :
    (∀ v n, a.nc = some v → parseHex v = some n → a.ncNum = n) ∧
    (a.qop = AuthQop.qnone →
      verify_digest_response md5hex req junk s value = .ok (NE_OK, nextnonceUpdate a s)) ∧
    (a.qop = AuthQop.qauth → (a.rspauth = none ∨ a.cnonce = none ∨ a.nc = none) →
      verify_digest_response md5hex req junk s value = .ok (NE_ERROR, nextnonceUpdate a s)) ∧
    (∀ rsp ac nv sc, a.qop = AuthQop.qauth → a.rspauth = some rsp →
      a.cnonce = some ac → a.nc = some nv → s.cnonce = some sc → ac ≠ sc →
      verify_digest_response md5hex req junk s value = .ok (NE_ERROR, nextnonceUpdate a s)) ∧
    (∀ rsp ac nv sc, a.qop = AuthQop.qauth → a.rspauth = some rsp →
      a.cnonce = some ac → a.nc = some nv → s.cnonce = some sc → ac = sc →
      a.ncNum ≠ s.nonce_count →
      verify_digest_response md5hex req junk s value = .ok (NE_ERROR, nextnonceUpdate a s)) ∧
    (∀ rsp ac nv sc ctx qv, a.qop = AuthQop.qauth → a.rspauth = some rsp →
      a.cnonce = some ac → a.nc = some nv → s.cnonce = some sc → ac = sc →
      a.ncNum = s.nonce_count → s.stored_rdig = some ctx → a.qop_value = some qv →
      (verify_digest_response md5hex req junk s value =
        .ok ((if strCaseEq (md5hex (ctx ++ qv ++ ":" ++ md5hex (":" ++ req.uri))) rsp
              then NE_OK else NE_ERROR),
             nextnonceUpdate a { s with stored_rdig := none }) ∧
       (verify_digest_response md5hex req junk s value =
          .ok (NE_OK, nextnonceUpdate a { s with stored_rdig := none }) ↔
        strCaseEq (md5hex (ctx ++ qv ++ ":" ++ md5hex (":" ++ req.uri))) rsp = true))) := by
  subst ha
  refine ⟨extractAI_ncNum junk ps, ?_, ?_, ?_, ?_, ?_⟩
  · intro hq
    unfold verify_digest_response
    rw [hps]
    simp [hq]
  · intro hq hmiss
    unfold verify_digest_response
    rw [hps]
    rcases hmiss with h | h | h <;>
      cases hr : (extractAI junk ps).rspauth <;>
      cases hc : (extractAI junk ps).cnonce <;>
      cases hn : (extractAI junk ps).nc <;>
      simp_all [hq]
  · intro rsp ac nv sc hq hr hc hn hsc hne
    unfold verify_digest_response
    rw [hps]
    simp [hq, hr, hc, hn, hsc, hne]
  · intro rsp ac nv sc hq hr hc hn hsc hac hnc
    subst hac
    unfold verify_digest_response
    rw [hps]
    simp [hq, hr, hc, hn, hsc, hnc]
  · intro rsp ac nv sc ctx qv hq hr hc hn hsc hac hnc hrd hqv
    subst hac
    have hmain : verify_digest_response md5hex req junk s value =
        .ok ((if strCaseEq (md5hex (ctx ++ qv ++ ":" ++ md5hex (":" ++ req.uri))) rsp
              then NE_OK else NE_ERROR),
             nextnonceUpdate (extractAI junk ps) { s with stored_rdig := none }) := by
      unfold verify_digest_response
      rw [hps]
      simp [hq, hr, hc, hn, hsc, hnc, hrd, hqv]
    refine ⟨hmain, ?_⟩
    rw [hmain]
    cases hcmp : strCaseEq (md5hex (ctx ++ qv ++ ":" ++ md5hex (":" ++ req.uri))) rsp <;>
      simp [NE_OK, NE_ERROR]

/-- A mutual-auth Authentication-Info value matching `sessPending` under the
identity digest function. -/
def aiValue : String :=
  "qop=auth, rspauth=\"HA1:abc:00000001:ccc:auth::/\", cnonce=\"ccc\", nc=00000001"

/-- The parameter list `aiValue` tokenizes to. -/
def aiPairs : List (String × String) :=
  [("qop", "auth"), ("rspauth", "\"HA1:abc:00000001:ccc:auth::/\""),
   ("cnonce", "\"ccc\""), ("nc", "00000001")]

/-- `sessPending` after a successful verification consumed the rolling digest. -/
def sessConsumed : DigestSession :=
  { username := "jo", basic := none, realm := some "x", nonce := some "abc",
    cnonce := some "ccc", opq := none, qop := AuthQop.qauth, alg := AuthAlg.md5,
    nonce_count := 1, h_a1 := "HA1", stored_rdig := none }

/-- Witness for C1: on a matching rspauth the verifier returns NE_OK and
consumes the stored rolling digest. -/
theorem verify_digest_response_cases_witness :
    verify_digest_response (fun x => x) ⟨"GET", "/"⟩ 0 sessPending aiValue
      = .ok (NE_OK, sessConsumed) := by
  have h := verify_digest_response_cases (fun x => x) ⟨"GET", "/"⟩ 0 sessPending
      aiValue aiPairs (by rfl) (extractAI 0 aiPairs) rfl
  have h6 := (h.2.2.2.2.2 "HA1:abc:00000001:ccc:auth::/" "ccc" "00000001" "ccc"
      "HA1:abc:00000001:ccc:" "auth"
      (by rfl) (by rfl) (by rfl) (by rfl) (by rfl) rfl (by rfl) (by rfl) (by rfl)).1
  rw [h6]
  rfl

/-! ### C10: the stored_rdig discipline -/

/-- The condition under which verify_digest_response reaches its
digest-comparison branch: qop parsed as auth, rspauth/cnonce/nc all present,
cnonce equal to the session's, and the parsed nc equal to the session's
nonce count. -/
def verifyBranch (junk : Nat) (s : DigestSession) (value : String) : Bool :=
  match tokenizeParams value with
  | none => false
  | some ps =>
    let a := extractAI junk ps
    if a.qop = AuthQop.qnone then false
    else
      match a.rspauth, a.cnonce, a.nc with
      | some _, some ac, some _ =>
        match s.cnonce with
        | none => false
        | some sc =>
          if ac ≠ sc then false
          else if a.ncNum ≠ s.nonce_count then false
          else true
      | _, _, _ => false

/-- The digest-session operations, with the environment of each call (callback
outcome, generated cnonce, request, indeterminate stack value, header value)
recorded in the operation. -/
inductive DOp where
  | chall (creds : Option (String × String)) (fresh : String) (parms : Challenge)
  | respond (req : AuthRequest)
  | verifyOp (req : AuthRequest) (junk : Nat) (value : String)
  | clean
deriving Repr

/-- One operation applied to a session; `none` models a crash (a NULL
dereference inside request_digest or verify_digest_response). -/
def stepDOp (md5hex : String → String) (s : DigestSession) : DOp → Option DigestSession
  | .chall creds fresh parms => some (digest_challenge md5hex creds fresh s parms).1
  | .respond req => (request_digest md5hex req s).map (fun x => x.2)
  | .verifyOp req junk value =>
    match verify_digest_response md5hex req junk s value with
    | .ok p => some p.2
    | .error _ => none
  | .clean => some (clean_session s)

/-- The spec-level ghost: whether an unverified qop=auth request digest is
outstanding after the operation, given that `b` says whether one was
outstanding before it. -/
def ghostStep (s : DigestSession) (b : Bool) : DOp → Bool
  | .chall _ _ parms =>
    if parms.alg = AuthAlg.unknown then b
    else if parms.alg = AuthAlg.md5_sess ∧ parms.qop_auth = false then b
    else if parms.realm = none ∨ parms.nonce = none then b
    else if parms.stale then b
    else false
  | .respond _ => if s.qop = AuthQop.qnone then b else true
  | .verifyOp _ junk value => if verifyBranch junk s value then false else b
  | .clean => false

/-- Run a list of operations, threading the session and the ghost flag. -/
def traceRun (md5hex : String → String) :
    DigestSession → Bool → List DOp → Option (DigestSession × Bool)
  | s, b, [] => some (s, b)
  | s, b, op :: t =>
    match stepDOp md5hex s op with
    | none => none
    | some s' => traceRun md5hex s' (ghostStep s b op) t

theorem digest_challenge_rdig (md5hex : String → String)
    (creds : Option (String × String)) (fresh : String) (s : DigestSession)
    (parms : Challenge) :
    (digest_challenge md5hex creds fresh s parms).1.stored_rdig =
      (if parms.alg = AuthAlg.unknown then s.stored_rdig
       else if parms.alg = AuthAlg.md5_sess ∧ parms.qop_auth = false then s.stored_rdig
       else if parms.realm = none ∨ parms.nonce = none then s.stored_rdig
       else if parms.stale then s.stored_rdig
       else none) := by
  rcases parms with ⟨pr, pn, po, pst, pgq, pqa, palg⟩
  cases palg <;> cases pqa <;> cases pr <;> cases pn <;> cases pst <;>
    cases pgq <;> cases po <;> cases creds <;>
    simp [digest_challenge, clean_session]

theorem request_digest_rdig_isSome (md5hex : String → String) (req : AuthRequest)
    (s : DigestSession) (hdr : String) (s' : DigestSession)
    (h : request_digest md5hex req s = some (hdr, s')) :
    s'.stored_rdig.isSome = (if s.qop = AuthQop.qnone then s.stored_rdig.isSome else true) := by
  unfold request_digest at h
  split at h
  · split at h
    · simp only [Option.some.injEq, Prod.mk.injEq] at h
      obtain ⟨-, rfl⟩ := h
      simp_all
    · split at h
      · exact absurd h (by simp)
      · simp only [Option.some.injEq, Prod.mk.injEq] at h
        obtain ⟨-, rfl⟩ := h
        simp_all
  · exact absurd h (by simp)

/-- A crash on `sess->stored_rdig` happens only with no digest stored. -/
theorem verify_derefRdig_none (md5hex : String → String) (req : AuthRequest)
    (junk : Nat) (s : DigestSession) (value : String)
    (h : verify_digest_response md5hex req junk s value = .error VErr.derefRdig) :
    s.stored_rdig = none := by
  unfold verify_digest_response at h
  split at h
  · exact absurd h (by simp)
  · dsimp only at h
    split at h
    · exact absurd h (by simp)
    · split at h
      · split at h
        · exact absurd h (by simp)
        · split at h
          · exact absurd h (by simp)
          · split at h
            · exact absurd h (by simp)
            · split at h
              · assumption
              · exact absurd h (by simp)
      · exact absurd h (by simp)

/-- On success the verifier consumes stored_rdig exactly when the comparison
branch ran. -/
theorem verify_ok_rdig (md5hex : String → String) (req : AuthRequest)
    (junk : Nat) (s : DigestSession) (value : String) (r : Nat) (s' : DigestSession)
    (h : verify_digest_response md5hex req junk s value = .ok (r, s')) :
    s'.stored_rdig = (if verifyBranch junk s value then none else s.stored_rdig) := by
  unfold verify_digest_response at h
  unfold verifyBranch
  split at h
  · exact absurd h (by simp)
  · dsimp only at h ⊢
    split at h
    · next hq =>
      simp only [Except.ok.injEq, Prod.mk.injEq] at h
      obtain ⟨-, rfl⟩ := h
      simp [hq, nextnonceUpdate_rdig]
    · next hq =>
      split at h
      · next rsp ac nv hr hc hn =>
        split at h
        · exact absurd h (by simp)
        · next sc hsc =>
          split at h
          · next hne =>
            simp only [Except.ok.injEq, Prod.mk.injEq] at h
            obtain ⟨-, rfl⟩ := h
            simp [hq, hne, nextnonceUpdate_rdig]
          · next hne =>
            have hac : ac = sc := not_ne_iff.mp hne
            split at h
            · next hnc =>
              simp only [Except.ok.injEq, Prod.mk.injEq] at h
              obtain ⟨-, rfl⟩ := h
              simp [hq, hac, hnc, nextnonceUpdate_rdig]
            · next hnc =>
              have hncq := not_ne_iff.mp hnc
              split at h
              · exact absurd h (by simp)
              · next ctx hctx =>
                simp only [Except.ok.injEq, Prod.mk.injEq] at h
                obtain ⟨-, rfl⟩ := h
                simp [hq, hac, hncq, nextnonceUpdate_rdig]
      · next hmiss =>
        simp only [Except.ok.injEq, Prod.mk.injEq] at h
        obtain ⟨-, rfl⟩ := h
        simp [nextnonceUpdate_rdig]

/-- Each successful operation carries the stored_rdig presence bit to the
ghost's prediction. -/
theorem stepDOp_ghost (md5hex : String → String) (s : DigestSession) (b : Bool)
    (op : DOp) (s' : DigestSession) (hb : s.stored_rdig.isSome = b)
    (h : stepDOp md5hex s op = some s') :
    s'.stored_rdig.isSome = ghostStep s b op := by
  cases op with
  | chall creds fresh parms =>
    simp only [stepDOp, Option.some.injEq] at h
    subst h
    rw [ghostStep, digest_challenge_rdig]
    split_ifs <;> simp [hb]
  | respond req =>
    simp only [stepDOp, Option.map_eq_some'] at h
    obtain ⟨⟨hdr, s''⟩, hrq, hs⟩ := h
    dsimp only at hs
    subst hs
    rw [ghostStep, request_digest_rdig_isSome md5hex req s hdr s'' hrq]
    split_ifs <;> simp [hb]
  | verifyOp req junk value =>
    simp only [stepDOp] at h
    split at h
    · next p hv =>
      simp only [Option.some.injEq] at h
      subst h
      rw [ghostStep, verify_ok_rdig md5hex req junk s value p.1 p.2 hv]
      split_ifs <;> simp [hb]
    · exact absurd h (by simp)
  | clean =>
    simp only [stepDOp, Option.some.injEq] at h
    subst h
    rfl

/-- C10: the stored_rdig discipline.  (i) The verifier crashes on
`sess->stored_rdig` only when no digest is stored, so (ii) it cannot crash
that way while a qop=auth request is pending; (iii) on success it nulls the
stored digest exactly when the comparison branch ran; (iv) a qop=auth
request_digest (re)establishes the stored digest; (v) along any crash-free
trace of operations the presence of stored_rdig coincides with the ghost
flag "an unverified qop=auth request is outstanding"; and (vi) without the
precondition the crash is reachable: a concrete matching Authentication-Info
against a session whose digest was already consumed hits the NULL
dereference. -/
theorem stored_rdig_discipline :
    (∀ (md5hex : String → String) (req : AuthRequest) (junk : Nat)
       (s : DigestSession) (value : String),
       verify_digest_response md5hex req junk s value = .error VErr.derefRdig →
       s.stored_rdig = none) ∧
    (∀ (md5hex : String → String) (req : AuthRequest) (junk : Nat)
       (s : DigestSession) (value : String),
       s.stored_rdig.isSome = true →
       verify_digest_response md5hex req junk s value ≠ .error VErr.derefRdig) ∧
    (∀ (md5hex : String → String) (req : AuthRequest) (junk : Nat)
       (s : DigestSession) (value : String) (r : Nat) (s' : DigestSession),
       verify_digest_response md5hex req junk s value = .ok (r, s') →
       s'.stored_rdig = (if verifyBranch junk s value then none else s.stored_rdig)) ∧
    (∀ (md5hex : String → String) (req : AuthRequest) (s : DigestSession)
       (hdr : String) (s' : DigestSession),
       request_digest md5hex req s = some (hdr, s') → s.qop ≠ AuthQop.qnone →
       s'.stored_rdig.isSome = true) ∧
    (∀ (md5hex : String → String) (ops : List DOp) (s : DigestSession) (b : Bool)
       (s' : DigestSession) (b' : Bool),
       s.stored_rdig.isSome = b → traceRun md5hex s b ops = some (s', b') →
       s'.stored_rdig.isSome = b') ∧
    verify_digest_response (fun x => x) ⟨"GET", "/"⟩ 0 sessConsumed aiValue
      = .error VErr.derefRdig := by
  refine ⟨verify_derefRdig_none, ?_, verify_ok_rdig, ?_, ?_, by rfl⟩
  · intro md5hex req junk s value hsome h
    rw [verify_derefRdig_none md5hex req junk s value h] at hsome
    simp at hsome
  · intro md5hex req s hdr s' h hq
    rw [request_digest_rdig_isSome md5hex req s hdr s' h, if_neg hq]
  · intro md5hex ops
    induction ops with
    | nil =>
      intro s b s' b' hb h
      simp only [traceRun, Option.some.injEq, Prod.mk.injEq] at h
      obtain ⟨rfl, rfl⟩ := h
      exact hb
    | cons op t ih =>
      intro s b s' b' hb h
      simp only [traceRun] at h
      split at h
      · exact absurd h (by simp)
      · next s'' hs =>
        exact ih s'' (ghostStep s b op) s' b' (stepDOp_ghost md5hex s b op s'' hb hs) h

/-- Witness for C10 applying the trace invariant to a concrete trace: a
pending session (outstanding qop=auth request digest) goes through a matching
verification, which consumes the stored digest and clears the ghost flag. -/
theorem stored_rdig_discipline_witness :
    traceRun (fun x => x) sessPending true [DOp.verifyOp ⟨"GET", "/"⟩ 0 aiValue]
      = some (sessConsumed, false) ∧ sessConsumed.stored_rdig.isSome = false := by
  have h : traceRun (fun x => x) sessPending true [DOp.verifyOp ⟨"GET", "/"⟩ 0 aiValue]
      = some (sessConsumed, false) := by rfl
  exact ⟨h, stored_rdig_discipline.2.2.2.2.1 (fun x => x)
    [DOp.verifyOp ⟨"GET", "/"⟩ 0 aiValue] sessPending true sessConsumed false (by rfl) h⟩

/-! ### C2: the nc header field tracks nonce_count -/

theorem hexVal_hexChar : ∀ k, k < 16 → hexVal (hexChar k) = some k := by decide

/-- `%08x` and `sscanf %x` round-trip on values below 2^32. -/
theorem parseHex_toHex8 (n : Nat) (h : n < U32) : parseHex (toHex8 n) = some n := by
  have d0 := hexVal_hexChar (n / 268435456 % 16) (Nat.mod_lt _ (by norm_num))
  have d1 := hexVal_hexChar (n / 16777216 % 16) (Nat.mod_lt _ (by norm_num))
  have d2 := hexVal_hexChar (n / 1048576 % 16) (Nat.mod_lt _ (by norm_num))
  have d3 := hexVal_hexChar (n / 65536 % 16) (Nat.mod_lt _ (by norm_num))
  have d4 := hexVal_hexChar (n / 4096 % 16) (Nat.mod_lt _ (by norm_num))
  have d5 := hexVal_hexChar (n / 256 % 16) (Nat.mod_lt _ (by norm_num))
  have d6 := hexVal_hexChar (n / 16 % 16) (Nat.mod_lt _ (by norm_num))
  have d7 := hexVal_hexChar (n % 16) (Nat.mod_lt _ (by norm_num))
  show (match (toHex8 n).data with
    | [] => none
    | c :: _ =>
      if (hexVal c).isSome then some (parseHexAux 0 (toHex8 n).data % U32) else none) = some n
  have hd : (toHex8 n).data =
      [hexChar (n / 268435456 % 16), hexChar (n / 16777216 % 16),
       hexChar (n / 1048576 % 16), hexChar (n / 65536 % 16),
       hexChar (n / 4096 % 16), hexChar (n / 256 % 16),
       hexChar (n / 16 % 16), hexChar (n % 16)] := rfl
  rw [hd]
  dsimp only
  rw [d0]
  simp only [Option.isSome_some, if_true]
  simp only [parseHexAux, d0, d1, d2, d3, d4, d5, d6, d7]
  rw [Option.some.injEq]
  unfold U32 at h ⊢
  omega

/-- C2: for every qop=auth Digest credential header, nonce_count is first
incremented (mod 2^32) and the header carries exactly that value as
`nc=<8 lowercase hex digits>`, which hex-parses back to the session's new
nonce_count; consequently the first and second requests after an acceptance
that zeroed the counter carry nc=00000001 and nc=00000002. -/
theorem request_digest_nc :
    (∀ (md5hex : String → String) (req : AuthRequest) (s : DigestSession)
       (hdr : String) (s' : DigestSession),
       s.qop ≠ AuthQop.qnone →
       request_digest md5hex req s = some (hdr, s') →
       s'.nonce_count = (s.nonce_count + 1) % U32 ∧
       s'.qop = s.qop ∧
       parseHex (toHex8 s'.nonce_count) = some s'.nonce_count ∧
       (∃ pre, hdr = pre ++ "nc=" ++ toHex8 s'.nonce_count ++ ", " ++
         "qop=\"auth\"" ++ "\r\n")) ∧
    (∀ (md5hex : String → String) (creds : Option (String × String)) (fresh : String)
       (s : DigestSession) (parms : Challenge) (s' : DigestSession),
       parms.stale = false → parms.got_qop = true →
       digest_challenge md5hex creds fresh s parms = (s', true) →
       s'.nonce_count = 0 ∧ s'.qop = AuthQop.qauth) ∧
    (∀ (md5hex : String → String) (req1 req2 : AuthRequest) (s : DigestSession)
       (hdr1 hdr2 : String) (s1 s2 : DigestSession),
       s.nonce_count = 0 → s.qop = AuthQop.qauth →
       request_digest md5hex req1 s = some (hdr1, s1) →
       request_digest md5hex req2 s1 = some (hdr2, s2) →
       s1.nonce_count = 1 ∧ s2.nonce_count = 2 ∧
       (∃ p1, hdr1 = p1 ++ "nc=" ++ "00000001" ++ ", " ++ "qop=\"auth\"" ++ "\r\n") ∧
       (∃ p2, hdr2 = p2 ++ "nc=" ++ "00000002" ++ ", " ++ "qop=\"auth\"" ++ "\r\n")) := by
  have partA : ∀ (md5hex : String → String) (req : AuthRequest) (s : DigestSession)
      (hdr : String) (s' : DigestSession),
      s.qop ≠ AuthQop.qnone →
      request_digest md5hex req s = some (hdr, s') →
      s'.nonce_count = (s.nonce_count + 1) % U32 ∧
      s'.qop = s.qop ∧
      parseHex (toHex8 s'.nonce_count) = some s'.nonce_count ∧
      (∃ pre, hdr = pre ++ "nc=" ++ toHex8 s'.nonce_count ++ ", " ++
        "qop=\"auth\"" ++ "\r\n") := by
    intro md5hex req s hdr s' hq h
    unfold request_digest at h
    split at h
    · next nonce realm hsn hsr =>
      rw [if_neg hq] at h
      split at h
      · exact absurd h (by simp)
      · next cn hcn =>
        simp only [Option.some.injEq, Prod.mk.injEq] at h
        obtain ⟨rfl, rfl⟩ := h
        refine ⟨rfl, rfl, parseHex_toHex8 _ (Nat.mod_lt _ (by simp [U32])), ?_⟩
        refine ⟨"Digest username=\"" ++ s.username ++ "\", " ++
          "realm=\"" ++ realm ++ "\", " ++
          "nonce=\"" ++ nonce ++ "\", " ++
          "uri=\"" ++ req.uri ++ "\", " ++
          "response=\"" ++ md5hex ((s.h_a1 ++ ":" ++ nonce ++ ":" ++
            toHex8 ((s.nonce_count + 1) % U32) ++ ":" ++ cn ++ ":") ++ "auth" ++ ":" ++
            md5hex (req.method ++ ":" ++ req.uri)) ++ "\", " ++
          "algorithm=\"" ++ (if s.alg = AuthAlg.md5 then "MD5" else "MD5-sess") ++ "\"" ++
          (match s.opq with
           | some o => ", opaque=\"" ++ o ++ "\""
           | none => "") ++ ", cnonce=\"" ++ cn ++ "\", ", ?_⟩
        simp only [digestHeader, String.append_assoc]
    · exact absurd h (by simp)
  refine ⟨partA, ?_, ?_⟩
  · intro md5hex creds fresh s parms s' hst hgq h
    rcases parms with ⟨pr, pn, po, pst, pgq, pqa, palg⟩
    simp only at hst hgq
    subst hst
    subst hgq
    cases palg <;> cases pqa <;> cases pr <;> cases pn <;> cases po <;> cases creds <;>
      simp [digest_challenge] at h <;> subst h <;> simp
  · intro md5hex req1 req2 s hdr1 hdr2 s1 s2 h0 hqa h1 h2
    have a1 := partA md5hex req1 s hdr1 s1 (by rw [hqa]; exact fun hc => by cases hc) h1
    have hs1nc : s1.nonce_count = 1 := by
      rw [a1.1, h0]
      rfl
    have hs1q : s1.qop = AuthQop.qauth := by rw [a1.2.1, hqa]
    have a2 := partA md5hex req2 s1 hdr2 s2 (by rw [hs1q]; exact fun hc => by cases hc) h2
    have hs2nc : s2.nonce_count = 2 := by
      rw [a2.1, hs1nc]
      rfl
    refine ⟨hs1nc, hs2nc, ?_, ?_⟩
    · obtain ⟨pre, hpre⟩ := a1.2.2.2
      exact ⟨pre, by rw [hpre, hs1nc]; rfl⟩
    · obtain ⟨pre, hpre⟩ := a2.2.2.2
      exact ⟨pre, by rw [hpre, hs2nc]; rfl⟩

/-- The session after the first qop=auth request on `sessStaleAfter`. -/
def sessReq1 : DigestSession :=
  { username := "jo", basic := none, realm := some "x", nonce := some "def",
    cnonce := some "f1", opq := none, qop := AuthQop.qauth, alg := AuthAlg.md5,
    nonce_count := 1, h_a1 := "HA1", stored_rdig := some "HA1:def:00000001:f1:" }

/-- Witness for C2: two consecutive sends on a freshly reset session carry
nc=00000001 then nc=00000002. -/
theorem request_digest_nc_witness :
    ∃ hdr1 hdr2 s2,
      request_digest (fun x => x) ⟨"GET", "/"⟩ sessStaleAfter = some (hdr1, sessReq1) ∧
      request_digest (fun x => x) ⟨"GET", "/"⟩ sessReq1 = some (hdr2, s2) ∧
      sessReq1.nonce_count = 1 ∧ s2.nonce_count = 2 ∧
      (∃ p1, hdr1 = p1 ++ "nc=" ++ "00000001" ++ ", " ++ "qop=\"auth\"" ++ "\r\n") ∧
      (∃ p2, hdr2 = p2 ++ "nc=" ++ "00000002" ++ ", " ++ "qop=\"auth\"" ++ "\r\n") := by
  have h1 : request_digest (fun x => x) ⟨"GET", "/"⟩ sessStaleAfter
      = some ("Digest username=\"jo\", realm=\"x\", nonce=\"def\", uri=\"/\", " ++
              "response=\"HA1:def:00000001:f1:auth:GET:/\", algorithm=\"MD5\", " ++
              "cnonce=\"f1\", nc=00000001, qop=\"auth\"\r\n", sessReq1) := by rfl
  set hdr1 : String := "Digest username=\"jo\", realm=\"x\", nonce=\"def\", uri=\"/\", " ++
      "response=\"HA1:def:00000001:f1:auth:GET:/\", algorithm=\"MD5\", " ++
      "cnonce=\"f1\", nc=00000001, qop=\"auth\"\r\n" with hdef
  have h2 : ∃ hdr2 s2, request_digest (fun x => x) ⟨"GET", "/"⟩ sessReq1
      = some (hdr2, s2) := ⟨_, _, rfl⟩
  obtain ⟨hdr2, s2, h2⟩ := h2
  have hc := request_digest_nc.2.2 (fun x => x) ⟨"GET", "/"⟩ ⟨"GET", "/"⟩ sessStaleAfter
      hdr1 hdr2 sessReq1 s2 (by rfl) (by rfl) h1 h2
  exact ⟨hdr1, hdr2, s2, h1, h2, hc.1, hc.2.1, hc.2.2.1, hc.2.2.2⟩

/-! ### C3: the VERIFY_NON40x branch of ah_post_send -/

/-- The second branch of the post-send if-chain fires exactly when the first
does not apply, the selected protocol's flags word is nonzero (the literal
condition the C source tests), the status class is 2 or 3, and the challenge
header is present. -/
theorem ah_post_send_action_verifyChall_iff (p : AuthProtocol) (infoHdr authHdr : Bool)
    (st : Status) (statusCode : Nat) (conn : Bool) :
    ah_post_send_action (some p) infoHdr authHdr st statusCode conn = PostAction.verifyChall ↔
      ((infoHdr && protoVerifyNoNon40x (some p)) = false ∧ p.flags ≠ 0 ∧
       (st.klass = 2 ∨ st.klass = 3) ∧ authHdr = true) := by
  unfold ah_post_send_action
  split_ifs <;> simp_all [protoFlagsNonzero]

/-- C3: among the protocols of the registry (any build configuration), when
the first post-send branch does not apply, the verify-against-challenge
branch is taken exactly for the schemes whose flags include VERIFY_NON40x on
a class 2 or 3 response with the challenge header present — the literal
`flags ≠ 0` test agrees with `flags & VERIFY_NON40x ≠ 0` on every table
entry, because OPAQUE_PARAM and VERIFY_NON40x always occur together. -/
theorem ah_post_send_verify_non40x :
    ∀ (g sp : Bool) (p : AuthProtocol), p ∈ protocols g sp →
    ∀ (infoHdr authHdr : Bool) (st : Status) (statusCode : Nat) (conn : Bool),
      (infoHdr && protoVerifyNoNon40x (some p)) = false →
      (ah_post_send_action (some p) infoHdr authHdr st statusCode conn = PostAction.verifyChall ↔
        (p.flags &&& FLAG_VERIFY_NON40x ≠ 0 ∧ (st.klass = 2 ∨ st.klass = 3) ∧
         authHdr = true)) := by
  intro g sp p hp infoHdr authHdr st statusCode conn h1
  have hfl : p.flags = 0 ∨ p.flags = 3 := by
    have h5 : p = basicProto ∨ p = digestProto ∨ p = negoGssProto ∨
        p = ntlmSspiProto ∨ p = negoSspiProto := by
      cases g <;> cases sp <;> simp [protocols] at hp <;> tauto
    rcases h5 with rfl | rfl | rfl | rfl | rfl <;> simp [basicProto, digestProto,
      negoGssProto, ntlmSspiProto, negoSspiProto, FLAG_OPQ_PARAM, FLAG_VERIFY_NON40x]
  rw [ah_post_send_action_verifyChall_iff]
  have hiff : p.flags ≠ 0 ↔ p.flags &&& FLAG_VERIFY_NON40x ≠ 0 := by
    rcases hfl with hz | hz <;> rw [hz] <;> simp [FLAG_VERIFY_NON40x]
  rw [h1]
  simp only [true_and]
  rw [hiff]

/-- Witness for C3 at the GSSAPI Negotiate entry on a 2xx response with the
challenge header present: the verifier-against-challenge branch is taken. -/
theorem ah_post_send_verify_non40x_witness :
    ah_post_send_action (some negoGssProto) false true ⟨200, 2⟩ 401 false
      = PostAction.verifyChall := by
  have h := ah_post_send_verify_non40x true false negoGssProto (by decide)
    false true ⟨200, 2⟩ 401 false (by decide)
  exact h.mpr ⟨by decide, Or.inl rfl, rfl⟩

/-! ### C4: the acceptance loop of auth_challenge -/

theorem allFail_nil {σ : Type} (accept : ChItem → σ → σ × Bool) (s : σ) :
    allFail accept s [] := by
  intro l1 c l2 hl
  cases l1 <;> simp at hl

theorem allFail_cons {σ : Type} (accept : ChItem → σ → σ × Bool) (s : σ)
    (c : ChItem) (t : List ChItem) :
    allFail accept s (c :: t) ↔
      ((accept c s).2 = false ∧ allFail accept (accept c s).1 t) := by
  constructor
  · intro h
    refine ⟨h [] c t rfl, ?_⟩
    intro l1 c' l2 hl
    exact h (c :: l1) c' l2 (by simp [hl])
  · rintro ⟨h1, h2⟩ l1 c' l2 hl
    cases l1 with
    | nil =>
      simp only [List.nil_append, List.cons.injEq] at hl
      obtain ⟨rfl, rfl⟩ := hl
      exact h1
    | cons a l1' =>
      simp only [List.cons_append, List.cons.injEq] at hl
      obtain ⟨rfl, hl'⟩ := hl
      exact h2 l1' c' l2 hl'

theorem challengeLoop_none {σ : Type} (accept : ChItem → σ → σ × Bool) :
    ∀ (l : List ChItem) (s : σ),
      (challengeLoop accept s l).2 = none → allFail accept s l := by
  intro l
  induction l with
  | nil => intro s h; exact allFail_nil accept s
  | cons c t ih =>
    intro s h
    rw [challengeLoop] at h
    by_cases hr : (accept c s).2
    · rw [if_pos hr] at h
      simp at h
    · rw [if_neg hr] at h
      rw [allFail_cons]
      exact ⟨Bool.not_eq_true _ ▸ hr, ih (accept c s).1 h⟩

theorem challengeLoop_some {σ : Type} (accept : ChItem → σ → σ × Bool) :
    ∀ (l : List ChItem) (s : σ) (p : AuthProtocol),
      (challengeLoop accept s l).2 = some p →
      ∃ l1 c l2, l = l1 ++ c :: l2 ∧ p = c.protocol ∧ allFail accept s l1 ∧
        (accept c (runAll accept s l1)).2 = true ∧
        (challengeLoop accept s l).1 = (accept c (runAll accept s l1)).1 := by
  intro l
  induction l with
  | nil => intro s p h; simp [challengeLoop] at h
  | cons c t ih =>
    intro s p h
    rw [challengeLoop] at h ⊢
    by_cases hr : (accept c s).2
    · rw [if_pos hr] at h ⊢
      simp only at h
      obtain rfl : c.protocol = p := Option.some.injEq _ _ ▸ h
      exact ⟨[], c, t, rfl, rfl, allFail_nil accept s, hr, rfl⟩
    · rw [if_neg hr] at h ⊢
      obtain ⟨l1, c', l2, rfl, hp, hfail, hacc, hst⟩ := ih (accept c s).1 p h
      exact ⟨c :: l1, c', l2, rfl, hp,
        (allFail_cons accept s c _).mpr ⟨Bool.not_eq_true _ ▸ hr, hfail⟩, hacc, hst⟩

/-- Membership in an insert_challenge result. -/
theorem insert_challenge_mem (l : List ChItem) (p : AuthProtocol) (x : ChItem)
    (h : x ∈ insert_challenge l p) : x ∈ l ∨ x = mkChall p := by
  induction l with
  | nil =>
    simp [insert_challenge] at h
    exact Or.inr h
  | cons c t ih =>
    rw [insert_challenge] at h
    by_cases hgt : p.strength > c.protocol.strength
    · rw [if_pos hgt] at h
      rcases List.mem_cons.mp h with h | h
      · exact Or.inr h
      · exact Or.inl h
    · rw [if_neg hgt] at h
      rcases List.mem_cons.mp h with h | h
      · exact Or.inl (by simp [h])
      · rcases ih h with hm | hm
        · exact Or.inl (List.mem_cons_of_mem _ hm)
        · exact Or.inr hm

/-- insert_challenge preserves the non-increasing-strength ordering. -/
theorem insert_challenge_pairwise (l : List ChItem) (p : AuthProtocol)
    (h : l.Pairwise (fun a b => b.protocol.strength ≤ a.protocol.strength)) :
    (insert_challenge l p).Pairwise
      (fun a b => b.protocol.strength ≤ a.protocol.strength) := by
  induction l with
  | nil => simp [insert_challenge]
  | cons c t ih =>
    rw [insert_challenge]
    rw [List.pairwise_cons] at h
    obtain ⟨hc, ht⟩ := h
    split_ifs with hgt
    · refine List.Pairwise.cons ?_ (List.Pairwise.cons hc ht)
      intro x hx
      rcases hx with _ | hx
      · exact Nat.le_of_lt hgt
      · next hx => exact Nat.le_of_lt (Nat.lt_of_le_of_lt (hc x hx) hgt)
    · refine List.Pairwise.cons ?_ (ih ht)
      intro x hx
      rcases insert_challenge_mem t p x hx with hm | hm
      · exact hc x hm
      · rw [hm]
        exact Nat.le_of_not_lt hgt

/-- Folding insertions over any sorted accumulator keeps it sorted. -/
theorem foldl_insert_pairwise (ps : List AuthProtocol) :
    ∀ acc : List ChItem,
      acc.Pairwise (fun a b => b.protocol.strength ≤ a.protocol.strength) →
      (ps.foldl insert_challenge acc).Pairwise
        (fun a b => b.protocol.strength ≤ a.protocol.strength) := by
  induction ps with
  | nil => intro acc h; exact h
  | cons q t ih =>
    intro acc h
    exact ih (insert_challenge acc q) (insert_challenge_pairwise acc q h)

/-- C4: the acceptance loop tries the challenges in list order — a list that
is in non-increasing strength order whenever it was built by
insert_challenge — and (i) auth_challenge returns 0 exactly when a protocol
was selected, (ii) if no protocol was selected every acceptor failed, and
(iii) if a protocol was selected it is the protocol of the first challenge
whose acceptor succeeded, all earlier acceptors having failed on the threaded
session states. -/
theorem auth_challenge_selection {σ : Type} (accept : ChItem → σ → σ × Bool)
    (s : σ) (l : List ChItem) :
    (auth_challenge_ret (challengeLoop accept s l).2 = 0 ↔
      (challengeLoop accept s l).2 ≠ none) ∧
    ((challengeLoop accept s l).2 = none → allFail accept s l) ∧
    (∀ p, (challengeLoop accept s l).2 = some p →
      ∃ l1 c l2, l = l1 ++ c :: l2 ∧ p = c.protocol ∧ allFail accept s l1 ∧
        (accept c (runAll accept s l1)).2 = true ∧
        (challengeLoop accept s l).1 = (accept c (runAll accept s l1)).1) ∧
    (∀ ps : List AuthProtocol, l = ps.foldl insert_challenge [] →
      l.Pairwise (fun a b => b.protocol.strength ≤ a.protocol.strength)) := by
  refine ⟨?_, challengeLoop_none accept l s, challengeLoop_some accept l s, ?_⟩
  · cases h : (challengeLoop accept s l).2 <;> simp [auth_challenge_ret, h]
  · intro ps hl
    rw [hl]
    exact foldl_insert_pairwise ps [] (List.Pairwise.nil)

/-- The acceptor used in the C4 witness: succeeds exactly on Digest-strength
challenges and counts invocations in the state. -/
def acceptW : ChItem → Nat → Nat × Bool :=
  fun c n => (n + 1, decide (c.protocol.strength = 20))

/-- A strongest-to-weakest challenge list for the C4 witness. -/
def chListW : List ChItem :=
  [mkChall negoGssProto, mkChall digestProto, mkChall basicProto]

/-- Witness for C4: on a Negotiate-Digest-Basic list where only Digest
accepts, the loop selects Digest after one failed acceptor. -/
theorem auth_challenge_selection_witness :
    (challengeLoop acceptW 0 chListW).2 = some digestProto ∧
    ∃ l1 c l2, chListW = l1 ++ c :: l2 ∧ digestProto = c.protocol ∧
      allFail acceptW 0 l1 ∧ (acceptW c (runAll acceptW 0 l1)).2 = true ∧
      (challengeLoop acceptW 0 chListW).1 = (acceptW c (runAll acceptW 0 l1)).1 := by
  have hsel : (challengeLoop acceptW 0 chListW).2 = some digestProto := by decide
  exact ⟨hsel, (auth_challenge_selection acceptW 0 chListW).2.2.1 digestProto hsel⟩

/-! ### C5: ordering and stability of the challenge list; handler claiming -/

/-- insert_challenge splices the new node after exactly the nodes of greater
or equal strength. -/
theorem insert_challenge_splice (l : List ChItem) (p : AuthProtocol) :
    insert_challenge l p =
      l.takeWhile (fun c => p.strength ≤ c.protocol.strength) ++
        mkChall p :: l.dropWhile (fun c => p.strength ≤ c.protocol.strength) := by
  induction l with
  | nil => rfl
  | cons c t ih =>
    rw [insert_challenge]
    by_cases hgt : p.strength > c.protocol.strength
    · have hpred : (decide (p.strength ≤ c.protocol.strength)) = false := by
        simp
        omega
      rw [if_pos hgt, List.takeWhile_cons, List.dropWhile_cons]
      simp [hpred]
    · have hpred : (decide (p.strength ≤ c.protocol.strength)) = true := by
        simp
        omega
      rw [if_neg hgt, ih, List.takeWhile_cons, List.dropWhile_cons]
      simp [hpred]

/-- In a sorted list, inserting a challenge of strength `k` appends it after
all existing challenges of strength `k`: the per-strength subsequences extend
in insertion order. -/
theorem insert_challenge_filter (l : List ChItem) (p : AuthProtocol) (k : Nat)
    (hsort : l.Pairwise (fun a b => b.protocol.strength ≤ a.protocol.strength)) :
    (insert_challenge l p).filter (fun c => c.protocol.strength == k) =
      l.filter (fun c => c.protocol.strength == k) ++
        (if p.strength = k then [mkChall p] else []) := by
  induction l with
  | nil =>
    rw [insert_challenge]
    by_cases hk : p.strength = k <;> simp [mkChall, hk]
  | cons c t ih =>
    rw [List.pairwise_cons] at hsort
    obtain ⟨hc, ht⟩ := hsort
    rw [insert_challenge]
    by_cases hgt : p.strength > c.protocol.strength
    · rw [if_pos hgt]
      by_cases hk : p.strength = k
      · have h1 : List.filter (fun c => c.protocol.strength == k) (c :: t) = [] := by
          rw [List.filter_eq_nil_iff]
          intro x hx
          have hlt : x.protocol.strength < p.strength := by
            rcases List.mem_cons.mp hx with rfl | hx2
            · exact hgt
            · exact Nat.lt_of_le_of_lt (hc x hx2) hgt
          simp
          omega
        rw [List.filter_cons, h1, if_pos hk]
        simp [mkChall, hk]
      · have hmk : ((mkChall p).protocol.strength == k) = false := by simp [mkChall, hk]
        rw [List.filter_cons, hmk]
        simp [hk]
    · rw [if_neg hgt, List.filter_cons, List.filter_cons, ih ht]
      by_cases hck : (c.protocol.strength == k) = true
      · rw [hck]
        simp
      · rw [Bool.not_eq_true] at hck
        rw [hck]
        simp

/-- The per-strength stability of the challenge list built by auth_challenge:
for every strength value, the challenges of that strength appear in exactly
their insertion order. -/
theorem foldl_insert_filter (ps : List AuthProtocol) :
    ∀ acc : List ChItem,
      acc.Pairwise (fun a b => b.protocol.strength ≤ a.protocol.strength) →
      ∀ k, (ps.foldl insert_challenge acc).filter (fun c => c.protocol.strength == k) =
        acc.filter (fun c => c.protocol.strength == k) ++
          (ps.filter (fun q => q.strength == k)).map mkChall := by
  induction ps with
  | nil => intro acc hacc k; simp
  | cons q t ih =>
    intro acc hacc k
    rw [List.foldl_cons, List.filter_cons]
    rw [ih (insert_challenge acc q) (insert_challenge_pairwise acc q hacc) k]
    rw [insert_challenge_filter acc q k hacc]
    by_cases hk : (q.strength == k) = true
    · rw [hk]
      have : q.strength = k := by simpa using hk
      rw [if_pos this]
      simp
    · rw [Bool.not_eq_true] at hk
      rw [hk]
      have : ¬q.strength = k := by simpa using hk
      rw [if_neg this]
      simp

/-- claimHandler finds nothing exactly when no registered handler admits a
protocol with the token's name. -/
theorem claimHandler_none (key : String) (ps : List AuthProtocol) :
    ∀ hdls, claimHandler hdls key ps = none ↔
      ∀ h ∈ hdls, findProtoFor h key ps = none := by
  intro hdls
  induction hdls with
  | nil => simp [claimHandler]
  | cons h0 t ih =>
    rw [claimHandler]
    cases hf : findProtoFor h0 key ps with
    | some p => simp [hf]
    | none => simp [hf, ih]

/-- A successful claim names the first handler in registration order that
admits a protocol with the token's name, and the protocol it found. -/
theorem claimHandler_some (key : String) (ps : List AuthProtocol) :
    ∀ hdls h0 p0, claimHandler hdls key ps = some (h0, p0) →
      ∃ l1 l2, hdls = l1 ++ h0 :: l2 ∧
        (∀ h' ∈ l1, findProtoFor h' key ps = none) ∧
        findProtoFor h0 key ps = some p0 := by
  intro hdls
  induction hdls with
  | nil => intro h0 p0 h; simp [claimHandler] at h
  | cons hd t ih =>
    intro h0 p0 h
    rw [claimHandler] at h
    cases hf : findProtoFor hd key ps with
    | some p =>
      rw [hf] at h
      simp only [Option.some.injEq, Prod.mk.injEq] at h
      obtain ⟨rfl, rfl⟩ := h
      exact ⟨[], t, rfl, by simp, hf⟩
    | none =>
      rw [hf] at h
      obtain ⟨l1, l2, rfl, hnone, hfound⟩ := ih h0 p0 h
      refine ⟨hd :: l1, l2, rfl, ?_, hfound⟩
      intro h' hh
      rcases hh with _ | hh
      · exact hf
      · next hh => exact hnone h' hh

/-- C5: (i) insert_challenge places each new challenge after all challenges
of greater or equal strength and before all strictly weaker ones, so (ii) a
list built by successive insertions is in non-increasing strength order and
(iii) challenges of equal strength keep their insertion order; (iv) a bare
scheme token is claimed by the first registered handler whose protomask
admits a protocol of that (case-insensitive) name, with the inner table scan
taken in table order by `List.find?`. -/
theorem insert_challenge_order :
    (∀ (l : List ChItem) (p : AuthProtocol),
      insert_challenge l p =
        l.takeWhile (fun c => p.strength ≤ c.protocol.strength) ++
          mkChall p :: l.dropWhile (fun c => p.strength ≤ c.protocol.strength)) ∧
    (∀ ps : List AuthProtocol,
      (ps.foldl insert_challenge []).Pairwise
        (fun a b => b.protocol.strength ≤ a.protocol.strength)) ∧
    (∀ (ps : List AuthProtocol) (k : Nat),
      (ps.foldl insert_challenge []).filter (fun c => c.protocol.strength == k) =
        (ps.filter (fun q => q.strength == k)).map mkChall) ∧
    (∀ (key : String) (ps : List AuthProtocol) (hdls : List AuthHandler),
      (claimHandler hdls key ps = none ↔
        ∀ h ∈ hdls, findProtoFor h key ps = none)) ∧
    (∀ (key : String) (ps : List AuthProtocol) (hdls : List AuthHandler) h0 p0,
      claimHandler hdls key ps = some (h0, p0) →
      ∃ l1 l2, hdls = l1 ++ h0 :: l2 ∧
        (∀ h' ∈ l1, findProtoFor h' key ps = none) ∧
        findProtoFor h0 key ps = some p0) := by
  refine ⟨insert_challenge_splice, ?_, ?_, ?_, ?_⟩
  · intro ps
    exact foldl_insert_pairwise ps [] List.Pairwise.nil
  · intro ps k
    have := foldl_insert_filter ps [] List.Pairwise.nil k
    simpa using this
  · intro key ps hdls
    exact claimHandler_none key ps hdls
  · intro key ps hdls h0 p0 h
    exact claimHandler_some key ps hdls h0 p0 h

/-- The handlers of the C5 witness: the first admits only Basic, the second
Basic and Digest. -/
def hdlsW : List AuthHandler := [⟨NE_AUTH_BASIC⟩, ⟨NE_AUTH_BASIC + NE_AUTH_DIGEST⟩]

/-- Witness for C5: the token `Digest` is claimed by the second handler (the
first whose mask admits Digest), and the Basic-only handler is skipped. -/
theorem insert_challenge_order_witness :
    ∃ l1 l2, hdlsW = l1 ++ (⟨NE_AUTH_BASIC + NE_AUTH_DIGEST⟩ : AuthHandler) :: l2 ∧
      (∀ h' ∈ l1, findProtoFor h' "Digest" (protocols false false) = none) ∧
      findProtoFor ⟨NE_AUTH_BASIC + NE_AUTH_DIGEST⟩ "Digest" (protocols false false)
        = some digestProto := by
  exact insert_challenge_order.2.2.2.2 "Digest" (protocols false false) hdlsW
    ⟨NE_AUTH_BASIC + NE_AUTH_DIGEST⟩ digestProto (by decide)

end NeAuth
